import Mathlib

/-!
Shallow embedding of the retrieval-augmented-generation pipeline of
`rag_AI_assistant.ipynb`: the embedding cache (`loadOrBuild` /
`embedBatches`), the exact L2 similarity index (`indexQuery`, modelling
`faiss.IndexFlatL2`), the composed `VectorStore.search`, the interaction
log (`log_interaction`) and the orchestrator (`generate_response`).

Modelling conventions:
* embedding vectors are lists of integers, exact kernel-computable
  stand-ins for the float vectors of the source (the claims only use
  subtraction, multiplication and order); squared-L2 distance is `sqDist`;
* the embedder (`SentenceTransformer.encode`) and the generation oracle
  (LLaMA `generate` + `decode`) are opaque parameters; the oracle and
  the CSV writer return `Except String` to model Python exceptions;
* timestamps are abstracted to natural-number clock readings (the
  source stores `datetime.now().isoformat()` strings whose
  chronological order is what the claims are about);
* the interaction-log file content is the in-memory `List Interaction`.
-/

/-- One corpus row of the cached dataset: columns `customer_query`,
`support_reply`. -/
structure Record where
  customer_query : String
  support_reply : String
deriving DecidableEq, Repr

/-- One row of `chat_log.csv`: columns `timestamp`, `query`, `context`,
`response`.  The timestamp is a monotone clock reading. -/
structure Interaction where
  timestamp : Nat
  query : String
  context : String
  response : String
deriving DecidableEq, Repr

/-- Squared Euclidean (L2) distance between two vectors, the metric of
`faiss.IndexFlatL2`. -/
def sqDist (u v : List ℤ) : ℤ :=
  (List.zipWith (fun a b => (a - b) * (a - b)) u v).sum

/-- The vector stored at position `i` of the index (default `[]` out of
range; only used in statements with in-range indices). -/
def vecAt (vecs : List (List ℤ)) (i : Nat) : List ℤ :=
  (vecs.get? i).getD []

/-- The `support_reply` of corpus row `i` (default `""` out of range;
only used in statements with in-range indices). -/
def replyAt (data : List Record) (i : Nat) : String :=
  (((data.get? i).map Record.support_reply)).getD ""

/-- `(distance, id)` pairs of every stored vector against the query
`q`, ids assigned in insertion order starting at `n` (FAISS ids are
64-bit ints; the source compares them with Python ints, so `Int`). -/
def distPairs (q : List ℤ) : List (List ℤ) → Int → List (ℤ × Int)
  | [], _ => []
  | v :: vs, n => (sqDist q v, n) :: distPairs q vs (n + 1)

/-- Ranking order of the exact search: ascending distance, ties broken
by lower id (insertion order), which keeps the ranking total. -/
def rankLe (a b : ℤ × Int) : Prop :=
  a.1 < b.1 ∨ (a.1 = b.1 ∧ a.2 ≤ b.2)

instance : DecidableRel rankLe := fun a b =>
  inferInstanceAs (Decidable (a.1 < b.1 ∨ (a.1 = b.1 ∧ a.2 ≤ b.2)))

instance : IsTotal (ℤ × Int) rankLe where
  total a b := by
    rcases lt_trichotomy a.1 b.1 with h | h | h
    · exact Or.inl (Or.inl h)
    · rcases le_total a.2 b.2 with h2 | h2
      · exact Or.inl (Or.inr ⟨h, h2⟩)
      · exact Or.inr (Or.inr ⟨h.symm, h2⟩)
    · exact Or.inr (Or.inl h)

instance : IsTrans (ℤ × Int) rankLe where
  trans a b c hab hbc := by
    rcases hab with hab | ⟨hab, hab2⟩
    · rcases hbc with hbc | ⟨hbc, _⟩
      · exact Or.inl (hab.trans hbc)
      · exact Or.inl (hbc ▸ hab)
    · rcases hbc with hbc | ⟨hbc, hbc2⟩
      · exact Or.inl (hab ▸ hbc)
      · exact Or.inr ⟨hab.trans hbc, hab2.trans hbc2⟩

/-- Distance value FAISS places on padding slots when `k` exceeds the
number of stored vectors (a huge float in the C++ code; its value is
never observed because padding ids are negative and filtered out). -/
def padDistance : ℤ := (2 : ℤ) ^ 128

/-- `index.search(q, k)` of a flat exact L2 index holding `vecs`:
the `k` best `(distance, id)` pairs in ascending-distance order; when
`k` exceeds the number of stored vectors the tail is padded with id
`-1`, exactly as FAISS pads its result buffers. -/
def indexQuery (vecs : List (List ℤ)) (q : List ℤ) (k : Nat) : List (ℤ × Int) :=
  (List.insertionSort rankLe (distPairs q vecs 0)).take k ++
    List.replicate (k - vecs.length) (padDistance, -1)

/-- The guard `0 <= i < len(self.data)` of `VectorStore.search`. -/
def inBounds (n : Nat) (i : Int) : Bool :=
  decide (0 ≤ i) && decide (i < (n : Int))

/-- `self.data.iloc[i]['support_reply']`: pandas positional lookup,
supporting Python-style negative indices; `none` models the
`IndexError` raised out of range. -/
def ilocReply (data : List Record) (i : Int) : Option String :=
  if i < 0 then
    if 0 ≤ i + data.length then
      (data.get? (i + data.length).toNat).map Record.support_reply
    else none
  else (data.get? i.toNat).map Record.support_reply

/-- A Python list comprehension whose body may raise: the first raised
exception (`none`) aborts the whole comprehension. -/
def tryMap {α β : Type} (f : α → Option β) : List α → Option (List β)
  | [] => some []
  | a :: l =>
    match f a with
    | none => none
    | some b =>
      match tryMap f l with
      | none => none
      | some bs => some (b :: bs)

/-- The `VectorStore` state after `__init__`: the corpus (`self.data`)
and the embedding matrix (`self.embeddings`, also the exact content of
the flat index, since `self.index.add(self.embeddings)` stores the rows
unchanged in order). -/
structure VectorStore where
  data : List Record
  embeddings : List (List ℤ)
deriving DecidableEq, Repr

/-- The batched embedding loop of `VectorStore.__init__`:
`for i in range(0, len(data), batch_size)` embeds the slice
`data['customer_query'].iloc[i:i+batch_size]` and the batch outputs are
concatenated in corpus order. -/
def embedBatches (embed : String → List ℤ) (batch_size : Nat) (texts : List String) : List (List ℤ) :=
  ((List.range' 0 ((texts.length + batch_size - 1) / batch_size) batch_size).map
    fun i => ((texts.drop i).take batch_size).map embed).flatten

/-- The cache branch of `VectorStore.__init__`: if the cache file
exists (`cache = some m`) its content is returned verbatim, otherwise
the corpus is embedded in batches (and persisted). -/
def loadOrBuild (data : List Record) (embed : String → List ℤ)
    (batch_size : Nat) (cache : Option (List (List ℤ))) : List (List ℤ) :=
  match cache with
  | some m => m
  | none => embedBatches embed batch_size (data.map Record.customer_query)

/-- `VectorStore.__init__`: load-or-build the embeddings, then build
the flat index with `self.index.add(self.embeddings)`.  `faiss`
rejects rows whose dimension differs from the declared 384, which the
source does not catch: that exception is the `.error` result. -/
def VectorStore.init (data : List Record) (embed : String → List ℤ)
    (batch_size : Nat) (cache : Option (List (List ℤ))) : Except String VectorStore :=
  let embeddings := loadOrBuild data embed batch_size cache
  if embeddings.all (fun row => row.length == 384) then
    .ok { data := data, embeddings := embeddings }
  else
    .error "faiss: dimension of added vectors differs from 384"

/-- `VectorStore.search(query, top_k)`: embed the query, run the index
search, keep only ids `i` with `0 <= i < len(self.data)`, and map the
survivors to their `support_reply`.  `none` models an `IndexError`
escaping the final list comprehension (proved unreachable below). -/
def VectorStore.search (vs : VectorStore) (embed : String → List ℤ)
    (query : String) (top_k : Nat) : Option (List String) :=
  let query_vec := embed query
  let indices := (indexQuery vs.embeddings query_vec top_k).map Prod.snd
  let valid_indices := indices.filter (inBounds vs.data.length)
  tryMap (ilocReply vs.data) valid_indices

/-- The characters of the marker `"Answer:"` after its head `'A'`
(split off so `pySplit` can match the head structurally). -/
def answerMarkerTail : List Char := ['n', 's', 'w', 'e', 'r', ':']

/-- The marker `"Answer:"` the orchestrator splits the decoded oracle
output on. -/
def answerMarker : List Char := 'A' :: answerMarkerTail

/-- Python `str.split(sep)` for the non-empty separator
`c0 :: sep`: scan left to right, cut at each non-overlapping
occurrence.  `"".split(sep)` is `[""]`, and a string without the
separator is returned as a single piece, exactly as in Python. -/
def pySplit (c0 : Char) (sep : List Char) : List Char → List (List Char)
  | [] => [[]]
  | c :: rest =>
    if c == c0 && sep.isPrefixOf rest then
      [] :: pySplit c0 sep (rest.drop sep.length)
    else
      match pySplit c0 sep rest with
      | [] => [[c]]
      | piece :: pieces => (c :: piece) :: pieces
termination_by l => l.length
decreasing_by
  · simp [List.length_drop]; omega
  · simp

/-- Python `str.strip()`: remove leading and trailing whitespace. -/
def pyStrip (s : List Char) : List Char :=
  ((s.dropWhile Char.isWhitespace).reverse.dropWhile Char.isWhitespace).reverse

/-- `response.split("Answer:")[-1].strip()` of `generate_response`. -/
def extractAnswer (response : List Char) : List Char :=
  pyStrip ((pySplit 'A' answerMarkerTail response).getLastD [])

/-- String-level wrapper of `extractAnswer`. -/
def extractAnswerStr (response : String) : String :=
  String.mk (extractAnswer response.toList)

/-- The f-string prompt template of `generate_response` (the exact
literal, indentation included). -/
def promptTemplate (context_str query : String) : String :=
  "<s>[INST] <<SYS>>You are a helpful support assistant.<</SYS>>\n\n    Past replies:\n    "
    ++ context_str ++ "\n\n    New question: " ++ query ++ "\n    Answer: [/INST]"

/-- `log_interaction(query, context, response)`: read the whole log,
append one row, rewrite the file through `persist` (whose `.error`
models a `to_csv` exception, in which case the file keeps its previous
content).  The timestamp is the caller's clock reading. -/
def log_interaction (persist : List Interaction → Except String Unit)
    (query context response : String) (timestamp : Nat)
    (log : List Interaction) : Except String (List Interaction) :=
  let new_entry : Interaction :=
    { timestamp := timestamp, query := query, context := context, response := response }
  let log_df := log ++ [new_entry]
  match persist log_df with
  | .ok _ => .ok log_df
  | .error e => .error e

/-- `generate_response(query)`: retrieve context with
`vector_store.search(query)` (top_k 3), join it with newlines, build
the prompt, call the generation oracle (`model.generate` +
`tokenizer.decode`), extract the answer, log the interaction, and
return the answer.  The returned pair is (call result, log file
content); an uncaught exception leaves the log as it was when raised. -/
def generate_response (vs : VectorStore) (embed : String → List ℤ)
    (oracle : String → Except String String)
    (persist : List Interaction → Except String Unit)
    (query : String) (timestamp : Nat)
    (log : List Interaction) : Except String String × List Interaction :=
  match VectorStore.search vs embed query 3 with
  | none => (.error "IndexError", log)
  | some context =>
    let context_str := String.intercalate "\n" context
    let prompt := promptTemplate context_str query
    match oracle prompt with
    | .error e => (.error e, log)
    | .ok response =>
      let answer := extractAnswerStr response
      match log_interaction persist query context_str answer timestamp log with
      | .error e => (.error e, log)
      | .ok log2 => (.ok answer, log2)

/-- Sequential orchestrated queries (the loop of `get_rag_response`):
each call runs `generate_response` with its own clock reading and the
log state left by the previous call. -/
def runQueries (vs : VectorStore) (embed : String → List ℤ)
    (oracle : String → Except String String)
    (persist : List Interaction → Except String Unit) :
    List (String × Nat) → List Interaction → List Interaction
  | [], log => log
  | (q, t) :: rest, log =>
    runQueries vs embed oracle persist rest (generate_response vs embed oracle persist q t log).2

/-! ### Concrete fixtures for witnesses and counterexamples -/

/-- A two-record corpus (the spec's scenario corpus). -/
def demoRecords : List Record :=
  [{ customer_query := "screen broken", support_reply := "try restarting the device" },
   { customer_query := "forgot password", support_reply := "reset your password via the emailed link" }]

/-- A deterministic one-dimensional stub embedder. -/
def demoEmbed : String → List ℤ := fun s => [(s.length : ℤ)]

/-- A concrete store over `demoRecords` with one stored vector per
record. -/
def demoStore : VectorStore :=
  { data := demoRecords, embeddings := [[0], [1]] }

/-- A deterministic 384-dimensional stub embedder. -/
def embed384 : String → List ℤ := fun s => List.replicate 384 (s.length : ℤ)

/-- A one-record corpus for the cache-build witness. -/
def oneRecData : List Record :=
  [{ customer_query := "a", support_reply := "b" }]

/-- A two-record corpus for the cache counterexamples. -/
def cexData : List Record :=
  [{ customer_query := "q1", support_reply := "r1" },
   { customer_query := "q2", support_reply := "r2" }]

/-- A stale cache: dimensionally consistent (384 columns) but with the
wrong row count and wrong content for `cexData`. -/
def cexStaleCache : List (List ℤ) := [List.replicate 384 (0 : ℤ)]

/-- A dimensionally inconsistent cache (rows of width 2, not 384). -/
def cexBadCache : List (List ℤ) := [[(1 : ℤ), 2]]

/-- An oracle that always succeeds with a fixed decoded output. -/
def okOracle : String → Except String String := fun _ => .ok "Answer: ok"

/-- An oracle that always raises (e.g. a timeout). -/
def failOracle : String → Except String String := fun _ => .error "timeout"

/-- A CSV writer that always succeeds. -/
def okPersist : List Interaction → Except String Unit := fun _ => .ok ()

/-- A CSV writer that always raises. -/
def failPersist : List Interaction → Except String Unit := fun _ => .error "disk full"

/-! ### Helper lemmas: the similarity index -/

theorem distPairs_length (q : List ℤ) : ∀ (vs : List (List ℤ)) (n : Int),
    (distPairs q vs n).length = vs.length
  | [], _ => rfl
  | _ :: vs, n => by simp [distPairs, distPairs_length q vs (n + 1)]

theorem distPairs_mem (q : List ℤ) : ∀ (vs : List (List ℤ)) (n : Int),
    ∀ p ∈ distPairs q vs n,
      n ≤ p.2 ∧ p.2 < n + vs.length ∧ p.1 = sqDist q (vecAt vs (p.2 - n).toNat)
  | [], _, p, hp => by simp [distPairs] at hp
  | v :: vs, n, p, hp => by
    simp only [distPairs, List.mem_cons] at hp
    rcases hp with rfl | hp
    · refine ⟨le_refl _, ?_, ?_⟩
      · simp only [List.length_cons]
        push_cast
        omega
      · show sqDist q v = sqDist q (vecAt (v :: vs) (n - n).toNat)
        simp [vecAt]
    · obtain ⟨h1, h2, h3⟩ := distPairs_mem q vs (n + 1) p hp
      refine ⟨by omega, ?_, ?_⟩
      · simp only [List.length_cons]
        push_cast at h2 ⊢
        omega
      · have hidx : (p.2 - n).toNat = (p.2 - (n + 1)).toNat + 1 := by omega
        rw [hidx]
        simpa [vecAt] using h3

theorem distPairs_pairwise_snd (q : List ℤ) : ∀ (vs : List (List ℤ)) (n : Int),
    (distPairs q vs n).Pairwise (fun a b => a.2 < b.2)
  | [], _ => List.Pairwise.nil
  | v :: vs, n => by
    refine List.Pairwise.cons ?_ (distPairs_pairwise_snd q vs (n + 1))
    intro b hb
    have h := (distPairs_mem q vs (n + 1) b hb).1
    show n < b.2
    omega

theorem tryMap_eq_some_map {α β : Type} (f : α → Option β) (g : α → β) :
    ∀ l : List α, (∀ a ∈ l, f a = some (g a)) → tryMap f l = some (l.map g)
  | [], _ => rfl
  | a :: l, h => by
    have ha := h a (by simp)
    have ih := tryMap_eq_some_map f g l (fun x hx => h x (by simp [hx]))
    simp [tryMap, ha, ih]

/-- Everything `VectorStore.search` guarantees: the lookups all
succeed, and the returned replies come from distinct in-range corpus
rows listed in ascending order of squared-L2 distance to the query
embedding. -/
theorem search_spec (vs : VectorStore) (embed : String → List ℤ) (q : String) (k : Nat) :
    ∃ ids : List Nat,
      VectorStore.search vs embed q k = some (ids.map (replyAt vs.data)) ∧
      ids.length ≤ k ∧
      ids.Nodup ∧
      (∀ i ∈ ids, i < vs.data.length ∧ i < vs.embeddings.length) ∧
      ids.Pairwise (fun i j =>
        sqDist (embed q) (vecAt vs.embeddings i) ≤ sqDist (embed q) (vecAt vs.embeddings j)) := by
  classical
  set N := vs.data.length with hN
  set P := distPairs (embed q) vs.embeddings 0 with hP
  set S := List.insertionSort rankLe P with hS
  set T := S.take k with hT
  set F := T.filter (fun p => inBounds N p.2) with hF
  have hmemP : ∀ p ∈ P, 0 ≤ p.2 ∧ p.2 < vs.embeddings.length ∧
      p.1 = sqDist (embed q) (vecAt vs.embeddings p.2.toNat) := by
    intro p hp
    have h := distPairs_mem (embed q) vs.embeddings 0 p hp
    simpa using h
  have hFS : F.Sublist S := (List.filter_sublist T).trans (List.take_sublist k S)
  have hSP : S.Perm P := List.perm_insertionSort rankLe P
  have hmemF : ∀ p ∈ F, 0 ≤ p.2 ∧ p.2 < vs.embeddings.length ∧
      p.1 = sqDist (embed q) (vecAt vs.embeddings p.2.toNat) := by
    intro p hp
    exact hmemP p (hSP.mem_iff.mp (hFS.mem hp))
  have hboundsF : ∀ p ∈ F, inBounds N p.2 = true := by
    intro p hp
    exact (List.mem_filter.mp hp).2
  refine ⟨F.map (fun p => p.2.toNat), ?_, ?_, ?_, ?_, ?_⟩
  · -- the search call evaluates to exactly these replies
    show tryMap (ilocReply vs.data) (((indexQuery vs.embeddings (embed q) k).map Prod.snd).filter
        (inBounds vs.data.length)) = _
    have hsplit : ((indexQuery vs.embeddings (embed q) k).map Prod.snd).filter
        (inBounds vs.data.length) = F.map Prod.snd := by
      rw [indexQuery, ← hP, ← hS, ← hT, List.map_append, List.filter_append]
      have hpad : (List.replicate (k - vs.embeddings.length)
          ((padDistance, -1) : ℤ × Int)).map Prod.snd
          = List.replicate (k - vs.embeddings.length) (-1 : Int) := by
        simp
      rw [hpad, List.filter_replicate_of_neg (by simp [inBounds]), List.append_nil,
        List.filter_map, hF]
      rfl
    rw [hsplit]
    have hlook : ∀ i ∈ F.map Prod.snd, ilocReply vs.data i = some (replyAt vs.data i.toNat) := by
      intro i hi
      obtain ⟨p, hp, rfl⟩ := List.mem_map.mp hi
      have hb := hboundsF p hp
      simp only [inBounds, Bool.and_eq_true, decide_eq_true_eq] at hb
      have h0 : ¬ p.2 < 0 := by omega
      have hlt : p.2.toNat < vs.data.length := by omega
      have hr := List.get?_eq_get (l := vs.data) (n := p.2.toNat) hlt
      rw [ilocReply, if_neg h0, hr, replyAt, hr]
      rfl
    rw [tryMap_eq_some_map _ (fun i => replyAt vs.data i.toNat) _ hlook]
    simp [List.map_map, Function.comp]
  · calc (F.map (fun p => p.2.toNat)).length = F.length := List.length_map _ _
      _ ≤ T.length := List.length_filter_le _ _
      _ ≤ k := by rw [hT, List.length_take]; exact min_le_left _ _
  · -- distinct ids
    have hPsnd : (P.map Prod.snd).Nodup := by
      have h := distPairs_pairwise_snd (embed q) vs.embeddings 0
      rw [← hP] at h
      exact List.pairwise_map.mpr (h.imp fun hlt => ne_of_lt hlt)
    have hSsnd : (S.map Prod.snd).Nodup := ((hSP.map Prod.snd).symm).nodup hPsnd
    have hFsnd : (F.map Prod.snd).Nodup := (hFS.map Prod.snd).nodup hSsnd
    have hcomp : F.map (fun p => p.2.toNat) = (F.map Prod.snd).map Int.toNat := by
      simp [List.map_map]
    rw [hcomp]
    refine hFsnd.map_on ?_
    intro x hx y hy hxy
    obtain ⟨px, hpx, rfl⟩ := List.mem_map.mp hx
    obtain ⟨py, hpy, rfl⟩ := List.mem_map.mp hy
    have hbx := hboundsF px hpx
    have hby := hboundsF py hpy
    simp only [inBounds, Bool.and_eq_true, decide_eq_true_eq] at hbx hby
    omega
  · intro i hi
    obtain ⟨p, hp, rfl⟩ := List.mem_map.mp hi
    have hb := hboundsF p hp
    simp only [inBounds, Bool.and_eq_true, decide_eq_true_eq] at hb
    have hlt := (hmemF p hp).2.1
    constructor <;> omega
  · -- ascending distances
    have hFsorted : F.Pairwise rankLe :=
      List.Pairwise.sublist hFS (List.sorted_insertionSort rankLe P)
    rw [List.pairwise_map]
    refine hFsorted.imp_of_mem ?_
    intro a b ha hb hr
    have hda := (hmemF a ha).2.2
    have hdb := (hmemF b hb).2.2
    rw [← hda, ← hdb]
    rcases hr with h | ⟨h, _⟩
    · exact le_of_lt h
    · exact le_of_eq h

/-- The defensive bounds filter makes every pandas lookup of
`VectorStore.search` succeed: the search never raises. -/
theorem search_isSome (vs : VectorStore) (embed : String → List ℤ) (q : String) (k : Nat) :
    (VectorStore.search vs embed q k).isSome := by
  obtain ⟨ids, h, -⟩ := search_spec vs embed q k
  simp [h]

/-! ### Helper lemmas: the batched embedding build -/

theorem le_ceil_div_mul (n bs : Nat) (hbs : 1 ≤ bs) : n ≤ ((n + bs - 1) / bs) * bs := by
  match n with
  | 0 => exact Nat.zero_le _
  | m + 1 =>
    have hpos : 0 < bs := hbs
    have hq : (m + 1 + bs - 1) / bs = m / bs + 1 := by
      have hm : m + 1 + bs - 1 = m + bs := by omega
      rw [hm, Nat.add_div_right m hpos]
    rw [hq]
    have h1 : bs * (m / bs) + m % bs = m := Nat.div_add_mod m bs
    have h2 : m % bs < bs := Nat.mod_lt m hpos
    have h3 : m < bs * (m / bs) + bs := by
      conv_lhs => rw [← h1]
      exact Nat.add_lt_add_left h2 _
    calc m + 1 ≤ bs * (m / bs) + bs := h3
      _ = (m / bs + 1) * bs := by ring

theorem range'_chunks {α : Type} (l : List α) (bs : Nat) :
    ∀ (m a : Nat), ((List.range' a m bs).map fun i => (l.drop i).take bs).flatten
      = (l.drop a).take (m * bs)
  | 0, a => by simp
  | m + 1, a => by
    rw [List.range'_succ, List.map_cons, List.flatten_cons, range'_chunks l bs m (a + bs),
      show (m + 1) * bs = bs + m * bs by ring, List.take_add, List.drop_drop]

/-- The batched loop over `range(0, len(data), batch_size)` embeds the
whole corpus exactly once, in order. -/
theorem embedBatches_eq_map (embed : String → List ℤ) (bs : Nat) (texts : List String)
    (hbs : 1 ≤ bs) : embedBatches embed bs texts = texts.map embed := by
  rw [embedBatches]
  have hinner : (fun i => ((texts.drop i).take bs).map embed)
      = fun i => (((texts.map embed).drop i).take bs) := by
    funext i
    rw [List.map_take, List.map_drop]
  rw [hinner, range'_chunks (texts.map embed) bs _ 0, List.drop_zero]
  exact List.take_of_length_le (by rw [List.length_map]; exact le_ceil_div_mul _ bs hbs)

/-! ### Helper lemmas: Python split and the answer extraction -/

theorem pySplit_ne_nil (c0 : Char) (sep : List Char) (s : List Char) : pySplit c0 sep s ≠ [] := by
  induction s using pySplit.induct c0 sep with
  | case1 => simp [pySplit]
  | case2 c rest h ih => rw [pySplit, if_pos h]; simp
  | case3 c rest h heq ih => rw [pySplit, if_neg h, heq]; simp
  | case4 c rest h p ps heq ih => rw [pySplit, if_neg h, heq]; simp

theorem getLastD_eq_of_ne_nil {α : Type} : ∀ (l : List α), l ≠ [] → ∀ a b : α,
    l.getLastD a = l.getLastD b
  | [], h => absurd rfl h
  | [_], _ => fun _ _ => by simp
  | _ :: y :: l, _ => fun a b => by
    simp only [List.getLastD_cons]

theorem intercalate_singleton {α : Type} (sep x : List α) : List.intercalate sep [x] = x := by
  simp [List.intercalate]

theorem intercalate_cons_ne_nil {α : Type} (sep x : List α) (ys : List (List α)) (h : ys ≠ []) :
    List.intercalate sep (x :: ys) = x ++ sep ++ List.intercalate sep ys := by
  cases ys with
  | nil => exact absurd rfl h
  | cons y ys =>
    simp [List.intercalate, List.intersperse_cons_cons, List.append_assoc]

theorem intercalate_append_singleton {α : Type} (sep t : List α) :
    ∀ (qs : List (List α)), qs ≠ [] →
      List.intercalate sep (qs ++ [t]) = List.intercalate sep qs ++ sep ++ t
  | [], h => absurd rfl h
  | [x], _ => by
    rw [List.singleton_append, intercalate_cons_ne_nil _ _ _ (by simp), intercalate_singleton,
      intercalate_singleton]
  | x :: y :: qs, _ => by
    have ih := intercalate_append_singleton sep t (y :: qs) (by simp)
    simp only [List.cons_append] at ih ⊢
    rw [intercalate_cons_ne_nil sep x (y :: (qs ++ [t])) (by simp), ih,
      intercalate_cons_ne_nil sep x (y :: qs) (by simp)]
    simp [List.append_assoc]

/-- Round trip: the split pieces, re-joined with the separator, give
back the original string. -/
theorem pySplit_intercalate (c0 : Char) (sep : List Char) (s : List Char) :
    List.intercalate (c0 :: sep) (pySplit c0 sep s) = s := by
  induction s using pySplit.induct c0 sep with
  | case1 => rw [pySplit]; exact intercalate_singleton _ _
  | case2 c rest h ih =>
    rw [pySplit, if_pos h, intercalate_cons_ne_nil _ _ _ (pySplit_ne_nil c0 sep _), ih]
    simp only [Bool.and_eq_true, beq_iff_eq] at h
    obtain ⟨hc, hpre⟩ := h
    obtain ⟨t, ht⟩ := List.isPrefixOf_iff_prefix.mp hpre
    subst hc
    rw [← ht, List.drop_left]
    simp
  | case3 c rest h heq ih => exact absurd heq (pySplit_ne_nil c0 sep rest)
  | case4 c rest h p ps heq ih =>
    rw [pySplit, if_neg h, heq]
    rw [heq] at ih
    cases ps with
    | nil =>
      rw [intercalate_singleton] at ih ⊢
      rw [ih]
    | cons q qs =>
      rw [intercalate_cons_ne_nil _ _ _ (by simp)] at ih
      rw [intercalate_cons_ne_nil _ _ _ (by simp), ← ih]
      simp

/-- A string without the separator is returned by the split as a
single piece, exactly as in Python. -/
theorem pySplit_no_marker (c0 : Char) (sep : List Char) (s : List Char) :
    ¬ (c0 :: sep) <:+: s → pySplit c0 sep s = [s] := by
  induction s using pySplit.induct c0 sep with
  | case1 => intro _; rw [pySplit]
  | case2 c rest hm ih =>
    intro h
    exfalso
    apply h
    simp only [Bool.and_eq_true, beq_iff_eq] at hm
    obtain ⟨hc, hpre⟩ := hm
    obtain ⟨t, ht⟩ := List.isPrefixOf_iff_prefix.mp hpre
    subst hc
    exact ⟨[], t, by rw [← ht]; rfl⟩
  | case3 c rest hm heq ih => exact absurd heq (pySplit_ne_nil c0 sep rest)
  | case4 c rest hm p ps heq ih =>
    intro h
    have hrest := ih (fun hinf => h (List.infix_cons hinf))
    rw [pySplit, if_neg hm, hrest]

/-- The separator never occurs in the last piece of the split. -/
theorem pySplit_last_no_marker (c0 : Char) (sep : List Char) (s : List Char) :
    ¬ (c0 :: sep) <:+: (pySplit c0 sep s).getLastD [] := by
  induction s using pySplit.induct c0 sep with
  | case1 =>
    rw [pySplit]
    simp only [List.getLastD_cons, List.getLastD_nil]
    intro hinf
    have := hinf.length_le
    simp at this
  | case2 c rest h ih =>
    rw [pySplit, if_pos h, List.getLastD_cons]
    rwa [getLastD_eq_of_ne_nil _ (pySplit_ne_nil c0 sep _) [] []]
  | case3 c rest h heq ih => exact absurd heq (pySplit_ne_nil c0 sep rest)
  | case4 c rest h p ps heq ih =>
    rw [pySplit, if_neg h, heq]
    rw [heq] at ih
    cases ps with
    | nil =>
      simp only [List.getLastD_cons, List.getLastD_nil] at ih ⊢
      have hrest : rest = p := by
        have hI := pySplit_intercalate c0 sep rest
        rw [heq, intercalate_singleton] at hI
        exact hI.symm
      intro hinf
      rcases List.infix_cons_iff.mp hinf with hpre | hinf2
      · rw [List.cons_prefix_cons] at hpre
        apply h
        simp only [Bool.and_eq_true, beq_iff_eq, List.isPrefixOf_iff_prefix]
        exact ⟨hpre.1.symm, by rw [hrest]; exact hpre.2⟩
      · exact ih hinf2
    | cons q qs =>
      simp only [List.getLastD_cons] at ih ⊢
      exact ih

/-! ### Helper lemmas: the orchestrator -/

theorem generate_response_ok (vs : VectorStore) (embed : String → List ℤ)
    (oracle : String → Except String String) (persist : List Interaction → Except String Unit)
    (q : String) (t : Nat) (log : List Interaction) (ctx : List String) (raw : String)
    (hs : VectorStore.search vs embed q 3 = some ctx)
    (ho : oracle (promptTemplate (String.intercalate "\n" ctx) q) = .ok raw)
    (hp : persist (log ++ [⟨t, q, String.intercalate "\n" ctx, extractAnswerStr raw⟩]) = .ok ()) :
    generate_response vs embed oracle persist q t log =
      (.ok (extractAnswerStr raw), log ++ [⟨t, q, String.intercalate "\n" ctx, extractAnswerStr raw⟩]) := by
  simp only [generate_response, hs, log_interaction, ho, hp]

theorem generate_response_oracle_error (vs : VectorStore) (embed : String → List ℤ)
    (oracle : String → Except String String) (persist : List Interaction → Except String Unit)
    (q : String) (t : Nat) (log : List Interaction) (ctx : List String) (e : String)
    (hs : VectorStore.search vs embed q 3 = some ctx)
    (ho : oracle (promptTemplate (String.intercalate "\n" ctx) q) = .error e) :
    generate_response vs embed oracle persist q t log = (.error e, log) := by
  simp only [generate_response, hs, ho]

theorem generate_response_persist_error (vs : VectorStore) (embed : String → List ℤ)
    (oracle : String → Except String String) (persist : List Interaction → Except String Unit)
    (q : String) (t : Nat) (log : List Interaction) (ctx : List String) (raw e : String)
    (hs : VectorStore.search vs embed q 3 = some ctx)
    (ho : oracle (promptTemplate (String.intercalate "\n" ctx) q) = .ok raw)
    (hp : persist (log ++ [⟨t, q, String.intercalate "\n" ctx, extractAnswerStr raw⟩]) = .error e) :
    generate_response vs embed oracle persist q t log = (.error e, log) := by
  simp only [generate_response, hs, log_interaction, ho, hp]

theorem generate_response_preserves_log (vs : VectorStore) (embed : String → List ℤ)
    (oracle : String → Except String String) (persist : List Interaction → Except String Unit)
    (q : String) (t : Nat) (log : List Interaction) :
    log <+: (generate_response vs embed oracle persist q t log).2 := by
  obtain ⟨ids, hs, -⟩ := search_spec vs embed q 3
  cases ho : oracle (promptTemplate
      (String.intercalate "\n" (ids.map (replyAt vs.data))) q) with
  | error e =>
    rw [generate_response_oracle_error vs embed oracle persist q t log _ e hs ho]
  | ok raw =>
    cases hp : persist (log ++ [⟨t, q, String.intercalate "\n" (ids.map (replyAt vs.data)), extractAnswerStr raw⟩]) with
    | error e =>
      rw [generate_response_persist_error vs embed oracle persist q t log _ raw e hs ho hp]
    | ok u =>
      rw [generate_response_ok vs embed oracle persist q t log _ raw hs ho hp]
      exact List.prefix_append log _

theorem runQueries_preserves_log (vs : VectorStore) (embed : String → List ℤ)
    (oracle : String → Except String String) (persist : List Interaction → Except String Unit) :
    ∀ (queries : List (String × Nat)) (log : List Interaction),
      log <+: runQueries vs embed oracle persist queries log
  | [], log => List.prefix_refl log
  | (q, t) :: rest, log => by
    rw [runQueries]
    exact (generate_response_preserves_log vs embed oracle persist q t log).trans
      (runQueries_preserves_log vs embed oracle persist rest _)

theorem runQueries_entries (vs : VectorStore) (embed : String → List ℤ)
    (oracle : String → Except String String) (persist : List Interaction → Except String Unit)
    (hok : ∀ p, ∃ r, oracle p = Except.ok r)
    (hper : ∀ l, persist l = Except.ok ()) :
    ∀ (queries : List (String × Nat)) (log : List Interaction),
      ∃ entries : List Interaction,
        runQueries vs embed oracle persist queries log = log ++ entries ∧
        entries.map Interaction.timestamp = queries.map Prod.snd
  | [], log => ⟨[], by simp [runQueries]⟩
  | (q, t) :: rest, log => by
    obtain ⟨ids, hs, -⟩ := search_spec vs embed q 3
    obtain ⟨raw, ho⟩ := hok (promptTemplate
      (String.intercalate "\n" (ids.map (replyAt vs.data))) q)
    have hgen := generate_response_ok vs embed oracle persist q t log _ raw hs ho (hper _)
    obtain ⟨entries, he1, he2⟩ := runQueries_entries vs embed oracle persist hok hper rest
      (log ++ [⟨t, q, String.intercalate "\n" (ids.map (replyAt vs.data)), extractAnswerStr raw⟩])
    refine ⟨⟨t, q, String.intercalate "\n" (ids.map (replyAt vs.data)), extractAnswerStr raw⟩ :: entries, ?_, ?_⟩
    · rw [runQueries, hgen]
      simp only []
      rw [he1]
      simp
    · simp [he2]

/-! ### The claims -/

/-- **C1** (confirmed): for every query text and every `k ≥ 1`,
`VectorStore.search(query, k)` returns at most `k` reply strings, each
drawn from a distinct record of the live corpus, and the squared-L2
distance of the corresponding corpus embedding to the query embedding
is non-decreasing along the returned list (the index's
ascending-distance order is preserved). -/
theorem search_ordering (vs : VectorStore) (embed : String → List ℤ) (q : String)
    (k : Nat) (hk : 1 ≤ k) :
    ∃ ids : List Nat,
      VectorStore.search vs embed q k = some (ids.map (replyAt vs.data)) ∧
      ids.length ≤ k ∧
      ids.Nodup ∧
      (∀ i ∈ ids, i < vs.data.length) ∧
      ids.Pairwise (fun i j =>
        sqDist (embed q) (vecAt vs.embeddings i) ≤ sqDist (embed q) (vecAt vs.embeddings j)) := by
  obtain ⟨ids, h1, h2, h3, h4, h5⟩ := search_spec vs embed q k
  exact ⟨ids, h1, h2, h3, fun i hi => (h4 i hi).1, h5⟩

/-- Witness for C1: the demo store, `k = 3`, a concrete query. -/
theorem search_ordering_witness :
    ∃ ids : List Nat,
      VectorStore.search demoStore demoEmbed "hi" 3 = some (ids.map (replyAt demoStore.data)) ∧
      ids.length ≤ 3 ∧
      ids.Nodup ∧
      (∀ i ∈ ids, i < demoStore.data.length) ∧
      ids.Pairwise (fun i j =>
        sqDist (demoEmbed "hi") (vecAt demoStore.embeddings i)
          ≤ sqDist (demoEmbed "hi") (vecAt demoStore.embeddings j)) :=
  search_ordering demoStore demoEmbed "hi" 3 (by decide)

/-- **C7** (confirmed): when a persisted cache exists, `loadOrBuild`
returns its content verbatim: for every corpus the result equals the
persisted matrix exactly, it does not depend on the embedder (which is
never invoked), and no validation against the corpus happens (any
corpus, embedder and batch size give the same result). -/
theorem cache_loaded_verbatim (data data2 : List Record) (embed embed2 : String → List ℤ)
    (bs bs2 : Nat) (cache : List (List ℤ)) :
    loadOrBuild data embed bs (some cache) = cache ∧
    loadOrBuild data embed bs (some cache) = loadOrBuild data2 embed2 bs2 (some cache) :=
  ⟨rfl, rfl⟩

/-- **C2** (confirmed): with no cache file, the corpus is embedded in
fixed-size batches concatenated in corpus order: the built matrix has
exactly one row per record and row `i` is the embedding of record
`i`'s customer query; the store (whose flat index holds exactly the
rows of that matrix, in order) inherits this positional binding. -/
theorem build_positional_binding (data : List Record) (embed : String → List ℤ)
    (bs : Nat) (hbs : 1 ≤ bs) (hdim : ∀ s, (embed s).length = 384) :
    ∃ vs : VectorStore, VectorStore.init data embed bs none = .ok vs ∧
      vs.data = data ∧
      vs.embeddings.length = data.length ∧
      ∀ i, i < data.length →
        vs.embeddings.get? i = (data.get? i).map (fun r => embed r.customer_query) := by
  have hbuild : loadOrBuild data embed bs none = data.map (fun r => embed r.customer_query) := by
    rw [show loadOrBuild data embed bs none
        = embedBatches embed bs (data.map Record.customer_query) from rfl,
      embedBatches_eq_map embed bs _ hbs, List.map_map]
    rfl
  have hall : (data.map (fun r => embed r.customer_query)).all
      (fun row => row.length == 384) = true := by
    rw [List.all_eq_true]
    intro row hrow
    obtain ⟨r, hr, rfl⟩ := List.mem_map.mp hrow
    simp [hdim]
  refine ⟨{ data := data, embeddings := data.map (fun r => embed r.customer_query) },
    ?_, rfl, List.length_map _ _, ?_⟩
  · simp [VectorStore.init, hbuild, hall]
  · intro i hi
    exact List.get?_map _ _ _

set_option maxRecDepth 4000 in
/-- Witness for C2: a one-record corpus, batch size 1, a
384-dimensional embedder. -/
theorem build_positional_binding_witness :
    ∃ vs : VectorStore,
      VectorStore.init oneRecData embed384 1 none = .ok vs ∧
      vs.data = oneRecData ∧
      vs.embeddings.length = oneRecData.length ∧
      ∀ i, i < oneRecData.length →
        vs.embeddings.get? i = (oneRecData.get? i).map (fun r => embed384 r.customer_query) :=
  build_positional_binding oneRecData embed384 1 (by decide) (fun s => by simp [embed384])

set_option maxRecDepth 4000 in
/-- **C8 counterexample** (the claim fails on the code): for the
concrete corpus `cexData`, a dimensionally inconsistent cache
(`cexBadCache`, width-2 rows) does not trigger a rebuild — the index
`add` raises, while the genuine rebuild path succeeds — and a
dimensionally consistent but stale cache (`cexStaleCache`, one row for
a two-record corpus) is silently handed to the index verbatim even
though it differs from what a rebuild would produce. -/
theorem cache_corrupt_counterexample :
    (VectorStore.init cexData embed384 128 (some cexBadCache)).isOk = false ∧
    (VectorStore.init cexData embed384 128 none).isOk = true ∧
    VectorStore.init cexData embed384 128 (some cexStaleCache) =
      .ok { data := cexData, embeddings := cexStaleCache } ∧
    cexStaleCache ≠ embedBatches embed384 128 (cexData.map Record.customer_query) :=
  ⟨by decide, by decide, rfl, by decide⟩

/-- **C8 amended** (what the code does): only absence of the cache
file triggers the batched rebuild; an existing cache is used verbatim
with no validation — rows of the declared dimension are accepted
silently however stale, and a row of any other dimension makes index
construction raise instead of triggering a rebuild. -/
theorem cache_rebuild_only_when_absent (data : List Record) (embed : String → List ℤ)
    (bs : Nat) (c : List (List ℤ)) :
    loadOrBuild data embed bs none = embedBatches embed bs (data.map Record.customer_query) ∧
    ((∀ row ∈ c, row.length = 384) →
      VectorStore.init data embed bs (some c) = .ok { data := data, embeddings := c }) ∧
    (∀ row ∈ c, row.length ≠ 384 → ∃ e, VectorStore.init data embed bs (some c) = .error e) := by
  refine ⟨rfl, ?_, ?_⟩
  · intro hdim
    have hall : c.all (fun row => row.length == 384) = true := by
      rw [List.all_eq_true]
      intro row hrow
      simpa using hdim row hrow
    simp [VectorStore.init, loadOrBuild, hall]
  · intro row hrow hbad
    have hall : c.all (fun row => row.length == 384) = false := by
      rw [List.all_eq_false]
      exact ⟨row, hrow, by simpa using hbad⟩
    exact ⟨"faiss: dimension of added vectors differs from 384",
      by simp [VectorStore.init, loadOrBuild, hall]⟩

set_option maxRecDepth 4000 in
/-- Witness for the amended C8: the stale cache is accepted verbatim,
the bad-dimension cache raises. -/
theorem cache_rebuild_only_when_absent_witness :
    (VectorStore.init cexData embed384 128 (some cexStaleCache)
      = .ok { data := cexData, embeddings := cexStaleCache }) ∧
    (∃ e, VectorStore.init cexData embed384 128 (some cexBadCache) = .error e) :=
  ⟨(cache_rebuild_only_when_absent cexData embed384 128 cexStaleCache).2.1 (by decide),
   (cache_rebuild_only_when_absent cexData embed384 128 cexBadCache).2.2 [(1 : ℤ), 2]
     (by decide) (by decide)⟩

/-- Every pair produced by the sorted exact search carries an id in
`[0, N)` and the distance of the vector stored at that id. -/
theorem sortedPairs_mem (q : List ℤ) (vecs : List (List ℤ)) (p : ℤ × Int)
    (hp : p ∈ List.insertionSort rankLe (distPairs q vecs 0)) :
    0 ≤ p.2 ∧ p.2 < vecs.length ∧ p.1 = sqDist q (vecAt vecs p.2.toNat) := by
  have h := distPairs_mem q vecs 0 p ((List.perm_insertionSort rankLe _).mem_iff.mp hp)
  simpa using h

theorem tryMap_length {α β : Type} (f : α → Option β) :
    ∀ (l : List α) (bs : List β), tryMap f l = some bs → bs.length = l.length
  | [], bs, h => by
    simp only [tryMap] at h
    rw [← Option.some_inj.mp h]
    simp
  | a :: l, bs, h => by
    rw [tryMap] at h
    cases hfa : f a with
    | none => rw [hfa] at h; exact absurd h (by simp)
    | some b =>
      rw [hfa] at h
      cases hrec : tryMap f l with
      | none => rw [hrec] at h; exact absurd h (by simp)
      | some bs2 =>
        rw [hrec] at h
        have := tryMap_length f l bs2 hrec
        rw [← Option.some_inj.mp h]
        simp [this]

/-- **C3** (confirmed): when `k` strictly exceeds the number `N` of
indexed vectors (and the corpus has its normal one-row-per-vector
correspondence with the index), the similarity query yields exactly
`N` usable ids, every kept id lies in `[0, N)`, the search returns
exactly `N` replies, and — for any store, query and `k` — the
defensive filter discards out-of-range ids before the corpus lookup,
so the search never indexes the corpus out of bounds (it always
returns instead of raising). -/
theorem query_bounds (vs : VectorStore) (embed : String → List ℤ) (q : String) (k : Nat)
    (hN : vs.data.length = vs.embeddings.length) (hk : vs.embeddings.length < k) :
    (((indexQuery vs.embeddings (embed q) k).map Prod.snd).filter
        (inBounds vs.data.length)).length = vs.embeddings.length ∧
    (∀ i ∈ ((indexQuery vs.embeddings (embed q) k).map Prod.snd).filter
        (inBounds vs.data.length), 0 ≤ i ∧ i < (vs.embeddings.length : Int)) ∧
    (∃ l, VectorStore.search vs embed q k = some l ∧ l.length = vs.embeddings.length) ∧
    (∀ (vs2 : VectorStore) (q2 : String) (k2 : Nat),
      (VectorStore.search vs2 embed q2 k2).isSome) := by
  have hSlen : (List.insertionSort rankLe (distPairs (embed q) vs.embeddings 0)).length
      = vs.embeddings.length := by
    rw [(List.perm_insertionSort rankLe _).length_eq, distPairs_length]
  have hvalid : ((indexQuery vs.embeddings (embed q) k).map Prod.snd).filter
      (inBounds vs.data.length)
      = (List.insertionSort rankLe (distPairs (embed q) vs.embeddings 0)).map Prod.snd := by
    rw [indexQuery, List.take_of_length_le (by omega), List.map_append, List.filter_append]
    rw [show (List.replicate (k - vs.embeddings.length) ((padDistance, -1) : ℤ × Int)).map
        Prod.snd = List.replicate (k - vs.embeddings.length) (-1 : Int) by simp]
    rw [List.filter_replicate_of_neg (by simp [inBounds]), List.append_nil]
    apply List.filter_eq_self.mpr
    intro i hi
    obtain ⟨p, hp, rfl⟩ := List.mem_map.mp hi
    obtain ⟨h1, h2, -⟩ := sortedPairs_mem (embed q) vs.embeddings p hp
    simp only [inBounds, Bool.and_eq_true, decide_eq_true_eq]
    rw [hN]
    exact ⟨h1, h2⟩
  have hvlen : (((indexQuery vs.embeddings (embed q) k).map Prod.snd).filter
      (inBounds vs.data.length)).length = vs.embeddings.length := by
    rw [hvalid, List.length_map, hSlen]
  refine ⟨hvlen, ?_, ?_, fun vs2 q2 k2 => search_isSome vs2 embed q2 k2⟩
  · intro i hi
    have hb := (List.mem_filter.mp hi).2
    simp only [inBounds, Bool.and_eq_true, decide_eq_true_eq] at hb
    rw [← hN]
    exact hb
  · obtain ⟨l, hl⟩ := Option.isSome_iff_exists.mp (search_isSome vs embed q k)
    refine ⟨l, hl, ?_⟩
    have hl2 : tryMap (ilocReply vs.data)
        (((indexQuery vs.embeddings (embed q) k).map Prod.snd).filter
          (inBounds vs.data.length)) = some l := hl
    rw [tryMap_length _ _ _ hl2, hvlen]

/-- Witness for C3: the demo store (`N = 2`) queried with `k = 3`. -/
theorem query_bounds_witness :
    (((indexQuery demoStore.embeddings (demoEmbed "hi") 3).map Prod.snd).filter
        (inBounds demoStore.data.length)).length = demoStore.embeddings.length ∧
    (∀ i ∈ ((indexQuery demoStore.embeddings (demoEmbed "hi") 3).map Prod.snd).filter
        (inBounds demoStore.data.length), 0 ≤ i ∧ i < (demoStore.embeddings.length : Int)) ∧
    (∃ l, VectorStore.search demoStore demoEmbed "hi" 3 = some l ∧
      l.length = demoStore.embeddings.length) ∧
    (∀ (vs2 : VectorStore) (q2 : String) (k2 : Nat),
      (VectorStore.search vs2 demoEmbed q2 k2).isSome) :=
  query_bounds demoStore demoEmbed "hi" 3 (by decide) (by decide)

/-- **C4 counterexample** (the claim fails on the code): the raw
output `" hi "` does not contain the marker, yet the extraction
returns `"hi"`, not the full raw output `" hi "` — the fallback result
is additionally stripped of surrounding whitespace. -/
theorem extract_fallback_counterexample :
    ¬ answerMarker <:+: " hi ".toList ∧
    extractAnswerStr " hi " = "hi" ∧
    extractAnswerStr " hi " ≠ " hi " := by
  have h2 : extractAnswerStr " hi " = "hi" := by
    simp [extractAnswerStr, extractAnswer, pySplit, pyStrip, answerMarkerTail, String.toList]
  refine ⟨fun h => absurd h.length_le (by decide), h2, ?_⟩
  rw [h2]
  decide

/-- **C4 amended** (extraction semantics as implemented): the answer is
the text after the last occurrence of the marker `"Answer:"`, stripped
of surrounding whitespace; for raw output without the marker the
extraction does not fail but returns the full raw output stripped of
surrounding whitespace. -/
theorem answer_extraction (s : List Char) :
    (¬ answerMarker <:+: s → extractAnswer s = pyStrip s) ∧
    (answerMarker <:+: s → ∃ u t : List Char,
      s = u ++ answerMarker ++ t ∧ ¬ answerMarker <:+: t ∧ extractAnswer s = pyStrip t) := by
  constructor
  · intro h
    rw [extractAnswer, pySplit_no_marker 'A' answerMarkerTail s h]
    simp
  · intro h
    have hne : pySplit 'A' answerMarkerTail s ≠ [] := pySplit_ne_nil 'A' answerMarkerTail s
    have hlast : ¬ answerMarker <:+: (pySplit 'A' answerMarkerTail s).getLastD [] :=
      pySplit_last_no_marker 'A' answerMarkerTail s
    have hI : List.intercalate answerMarker (pySplit 'A' answerMarkerTail s) = s :=
      pySplit_intercalate 'A' answerMarkerTail s
    set pieces := pySplit 'A' answerMarkerTail s with hp
    obtain ⟨qs, t, hqt⟩ : ∃ qs tt, pieces = qs ++ [tt] :=
      ⟨pieces.dropLast, pieces.getLast hne, (List.dropLast_append_getLast hne).symm⟩
    have hlastt : pieces.getLastD [] = t := by rw [hqt]; exact List.getLastD_concat _ _ _
    have hmt : ¬ answerMarker <:+: t := by rw [← hlastt]; exact hlast
    cases qs with
    | nil =>
      exfalso
      rw [hqt, List.nil_append, intercalate_singleton] at hI
      rw [← hI] at h
      exact hmt h
    | cons q1 qs1 =>
      refine ⟨List.intercalate answerMarker (q1 :: qs1), t, ?_, hmt, ?_⟩
      · rw [← hI, hqt, intercalate_append_singleton answerMarker t (q1 :: qs1) (by simp)]
      · rw [extractAnswer, ← hp, hlastt]

/-- Witness for the amended C4: a marker-free output is returned
stripped; an output containing the marker is cut at its last
occurrence. -/
theorem answer_extraction_witness :
    (extractAnswer "hello".toList = pyStrip "hello".toList) ∧
    (∃ u t : List Char, "x Answer: y".toList = u ++ answerMarker ++ t ∧
      ¬ answerMarker <:+: t ∧ extractAnswer "x Answer: y".toList = pyStrip t) :=
  ⟨(answer_extraction "hello".toList).1 (fun h => absurd h.length_le (by decide)),
   (answer_extraction "x Answer: y".toList).2 ⟨"x ".toList, " y".toList, by decide⟩⟩

/-- **C5** (confirmed): if the generation oracle raises during an
orchestrated call, the error propagates to the caller unchanged and no
Interaction record is appended: the log is exactly as before. -/
theorem oracle_failure_no_log (vs : VectorStore) (embed : String → List ℤ)
    (oracle : String → Except String String) (persist : List Interaction → Except String Unit)
    (q : String) (t : Nat) (log : List Interaction) (ctx : List String) (e : String)
    (hs : VectorStore.search vs embed q 3 = some ctx)
    (ho : oracle (promptTemplate (String.intercalate "\n" ctx) q) = .error e) :
    generate_response vs embed oracle persist q t log = (.error e, log) :=
  generate_response_oracle_error vs embed oracle persist q t log ctx e hs ho

/-- Witness for C5: a timing-out oracle on the demo store leaves the
empty log empty and surfaces the error. -/
theorem oracle_failure_no_log_witness :
    generate_response demoStore demoEmbed failOracle okPersist "hi" 7 []
      = (.error "timeout", []) :=
  oracle_failure_no_log demoStore demoEmbed failOracle okPersist "hi" 7 []
    ["reset your password via the emailed link", "try restarting the device"] "timeout"
    (by decide) rfl

/-- **C9 counterexample** (the claim fails on the code): generation
succeeds, the log write raises, and the call returns the persist error
— the already-computed answer is not returned and nothing downgrades
the failure to a warning. -/
theorem log_write_failure_counterexample :
    generate_response demoStore demoEmbed okOracle failPersist "hi" 7 []
      = (.error "disk full", []) ∧
    ∀ ans : String, (generate_response demoStore demoEmbed okOracle failPersist "hi" 7 []).1
      ≠ Except.ok ans := by
  have h1 : generate_response demoStore demoEmbed okOracle failPersist "hi" 7 []
      = (.error "disk full", []) :=
    generate_response_persist_error demoStore demoEmbed okOracle failPersist "hi" 7 []
      ["reset your password via the emailed link", "try restarting the device"]
      "Answer: ok" "disk full" (by decide) rfl rfl
  refine ⟨h1, ?_⟩
  intro ans
  rw [h1]
  simp

/-- **C9 amended** (what the code does): if persisting the Interaction
record fails after generation succeeded, the uncaught persist
exception propagates to the caller as the call's error, the generated
answer is not returned, and the log keeps its previous content. -/
theorem log_write_failure_propagates (vs : VectorStore) (embed : String → List ℤ)
    (oracle : String → Except String String) (persist : List Interaction → Except String Unit)
    (q : String) (t : Nat) (log : List Interaction) (ctx : List String) (raw e : String)
    (hs : VectorStore.search vs embed q 3 = some ctx)
    (ho : oracle (promptTemplate (String.intercalate "\n" ctx) q) = .ok raw)
    (hp : persist (log ++ [⟨t, q, String.intercalate "\n" ctx, extractAnswerStr raw⟩])
      = .error e) :
    generate_response vs embed oracle persist q t log = (.error e, log) :=
  generate_response_persist_error vs embed oracle persist q t log ctx raw e hs ho hp

/-- Witness for the amended C9: a failing CSV writer on the demo
store. -/
theorem log_write_failure_propagates_witness :
    generate_response demoStore demoEmbed okOracle failPersist "hi" 7 []
      = (.error "disk full", []) :=
  log_write_failure_propagates demoStore demoEmbed okOracle failPersist "hi" 7 []
    ["reset your password via the emailed link", "try restarting the device"]
    "Answer: ok" "disk full" (by decide) rfl rfl

/-- **C10** (confirmed): every successful orchestrated call appends
exactly one Interaction record: its query is the input text, its
context the newline-join of the retrieved replies used in the prompt,
and its response, character for character, the string returned to the
caller. -/
theorem interaction_fields (vs : VectorStore) (embed : String → List ℤ)
    (oracle : String → Except String String) (persist : List Interaction → Except String Unit)
    (q : String) (t : Nat) (log : List Interaction) (ans : String) (log2 : List Interaction)
    (h : generate_response vs embed oracle persist q t log = (.ok ans, log2)) :
    ∃ replies : List String,
      VectorStore.search vs embed q 3 = some replies ∧
      log2 = log ++ [⟨t, q, String.intercalate "\n" replies, ans⟩] := by
  obtain ⟨ids, hs, -⟩ := search_spec vs embed q 3
  refine ⟨ids.map (replyAt vs.data), hs, ?_⟩
  cases ho : oracle (promptTemplate
      (String.intercalate "\n" (ids.map (replyAt vs.data))) q) with
  | error e =>
    rw [generate_response_oracle_error vs embed oracle persist q t log _ e hs ho] at h
    simp at h
  | ok raw =>
    cases hp : persist (log ++ [⟨t, q,
        String.intercalate "\n" (ids.map (replyAt vs.data)), extractAnswerStr raw⟩]) with
    | error e =>
      rw [generate_response_persist_error vs embed oracle persist q t log _ raw e hs ho hp] at h
      simp at h
    | ok u =>
      cases u
      rw [generate_response_ok vs embed oracle persist q t log _ raw hs ho hp] at h
      have h1 : Except.ok (ε := String) (extractAnswerStr raw) = Except.ok ans :=
        congrArg Prod.fst h
      have h2 : log ++ [(⟨t, q, String.intercalate "\n" (ids.map (replyAt vs.data)),
          extractAnswerStr raw⟩ : Interaction)] = log2 := congrArg Prod.snd h
      rw [← h2, Except.ok.inj h1]

/-- Witness for C10: a concrete successful call on the demo store. -/
theorem interaction_fields_witness :
    ∃ replies : List String,
      VectorStore.search demoStore demoEmbed "hi" 3 = some replies ∧
      [] ++ [(⟨7, "hi",
          String.intercalate "\n" ["reset your password via the emailed link",
            "try restarting the device"],
          extractAnswerStr "Answer: ok"⟩ : Interaction)]
        = [] ++ [⟨7, "hi", String.intercalate "\n" replies, extractAnswerStr "Answer: ok"⟩] :=
  interaction_fields demoStore demoEmbed okOracle okPersist "hi" 7 []
    (extractAnswerStr "Answer: ok")
    ([] ++ [⟨7, "hi",
      String.intercalate "\n" ["reset your password via the emailed link",
        "try restarting the device"],
      extractAnswerStr "Answer: ok"⟩])
    (generate_response_ok demoStore demoEmbed okOracle okPersist "hi" 7 []
      ["reset your password via the emailed link", "try restarting the device"]
      "Answer: ok" (by decide) rfl rfl)

/-- **C6** (confirmed): after `n` sequential successful orchestrated
queries starting from the empty log, the log holds exactly `n` rows
with non-decreasing timestamps; each call appends exactly one row, and
an append never mutates or deletes rows already present (the old log
is always a prefix of the new one). -/
theorem log_growth (vs : VectorStore) (embed : String → List ℤ)
    (oracle : String → Except String String) (persist : List Interaction → Except String Unit)
    (queries : List (String × Nat))
    (hok : ∀ p, ∃ r, oracle p = Except.ok r)
    (hper : ∀ l, persist l = Except.ok ())
    (hts : (queries.map Prod.snd).Pairwise (· ≤ ·)) :
    (runQueries vs embed oracle persist queries []).length = queries.length ∧
    ((runQueries vs embed oracle persist queries []).map Interaction.timestamp).Pairwise
      (· ≤ ·) ∧
    (∀ (qs : List (String × Nat)) (log : List Interaction),
      log <+: runQueries vs embed oracle persist qs log) ∧
    (∀ (q : String) (t : Nat) (log : List Interaction), ∃ entry : Interaction,
      entry.timestamp = t ∧ entry.query = q ∧
      (generate_response vs embed oracle persist q t log).2 = log ++ [entry]) := by
  obtain ⟨entries, he1, he2⟩ := runQueries_entries vs embed oracle persist hok hper queries []
  rw [he1, List.nil_append]
  refine ⟨?_, ?_, fun qs log => runQueries_preserves_log vs embed oracle persist qs log, ?_⟩
  · have hlen := congrArg List.length he2
    simpa using hlen
  · rw [he2]
    exact hts
  · intro q t log
    obtain ⟨ids, hs, -⟩ := search_spec vs embed q 3
    obtain ⟨raw, ho⟩ := hok (promptTemplate
      (String.intercalate "\n" (ids.map (replyAt vs.data))) q)
    refine ⟨⟨t, q, String.intercalate "\n" (ids.map (replyAt vs.data)), extractAnswerStr raw⟩,
      rfl, rfl, ?_⟩
    rw [generate_response_ok vs embed oracle persist q t log _ raw hs ho (hper _)]

/-- Witness for C6: two sequential successful queries from the empty
log on the demo store. -/
theorem log_growth_witness :
    (runQueries demoStore demoEmbed okOracle okPersist [("a", 1), ("b", 2)] []).length
      = [("a", 1), ("b", 2)].length ∧
    ((runQueries demoStore demoEmbed okOracle okPersist [("a", 1), ("b", 2)] []).map
      Interaction.timestamp).Pairwise (· ≤ ·) ∧
    (∀ (qs : List (String × Nat)) (log : List Interaction),
      log <+: runQueries demoStore demoEmbed okOracle okPersist qs log) ∧
    (∀ (q : String) (t : Nat) (log : List Interaction), ∃ entry : Interaction,
      entry.timestamp = t ∧ entry.query = q ∧
      (generate_response demoStore demoEmbed okOracle okPersist q t log).2
        = log ++ [entry]) :=
  log_growth demoStore demoEmbed okOracle okPersist [("a", 1), ("b", 2)]
    (fun p => ⟨"Answer: ok", rfl⟩) (fun l => rfl) (by decide)
